import Mathlib

/-!
Verification of the data reconciliation pipeline of `app/routes/api.data.tsx`
and the column encoder `indexToSheetsColumn` of `app/lib/encode.ts`.

The TypeScript code is shallowly embedded: sheet cells, the per-row
processor, the merge reducer, the table range resolver and the column
encoder become executable Lean functions.  Network effects (the Places
lookup, the two Sheets fetches) are passed in as explicit parameters
(`Option`-valued responses; `none` models a non-success response).  A
JavaScript runtime exception escaping a function (an access on
`undefined`) is modelled by the function returning `none` / an error of
the surrounding `Except`.
-/

set_option maxRecDepth 100000

/-- `Schema$ExtendedValue` restricted to what the code touches:
`effectiveValue.numberValue` (absent when the cell has no effective value
of numeric kind). -/
structure EffectiveValue where
  numberValue : Option Int
deriving DecidableEq, Repr

/-- A sheet cell as used by the code: `formattedValue`,
`effectiveValue`, and the rich-link URI reached by the optional chain
`chipRuns?.[0]?.chip?.richLinkProperties?.uri` (flattened to one
`Option`). -/
structure CellData where
  formattedValue : Option String
  effectiveValue : Option EffectiveValue
  chipUri : Option String
deriving DecidableEq, Repr

/-- The named-field record `processRow` builds from a row: each
recognized column name maps to its cell, `none` when the column is not
present in the row. -/
structure RowRecord where
  tipo : Option CellData
  cidade : Option CellData
  gmaps : Option CellData
  user : Option CellData
  rank : Option CellData
  notas : Option CellData
deriving DecidableEq, Repr

/-- The `{location, displayName}` payload of a successful Places lookup. -/
structure PlaceMetadata where
  latitude : Int
  longitude : Int
  displayNameText : String
  displayNameLang : String
deriving DecidableEq, Repr

/-- `Place.location` from the source: city/name come from the row
(`formattedValue!` is a type assertion only, so the value can be absent
at runtime, hence `Option`), metadata from the lookup. -/
structure Location where
  city : Option String
  name : Option String
  metadata : PlaceMetadata
  url : String
  placeId : String
deriving DecidableEq, Repr

/-- One review: `{user, ranking, notes}`. -/
structure Review where
  user : Option String
  ranking : Int
  notes : String
deriving DecidableEq, Repr, Inhabited

/-- A merged place: `{types, location, reviews}`. -/
structure Place where
  types : List String
  location : Location
  reviews : List Review
deriving DecidableEq, Repr

/-- The `Error` type of the source: message plus the optional `meta`
diagnostic fields actually used (`placeId`, `rowData`). -/
structure ErrorData where
  error : String
  metaPlaceId : Option String
  metaRow : Option RowRecord
deriving DecidableEq, Repr

/-- The discriminated outcome of `processRow`:
`{ok: true, data: Place} | {ok: false, data: Error}`. -/
inductive RowOutcome where
  | ok (data : Place)
  | err (data : ErrorData)
deriving DecidableEq, Repr

/-- Adding one element to a JS `Set` (insertion-ordered, first-seen
position wins). -/
def jsAddUnique {α : Type} [DecidableEq α] (l : List α) (x : α) : List α :=
  if x ∈ l then l else l ++ [x]

/-- `Array.from(new Set(l))`: dedup keeping first occurrences in order. -/
def jsDedup {α : Type} [DecidableEq α] (l : List α) : List α :=
  l.foldl jsAddUnique []

/-- JS `s.split(", ")` on the character list: split at each leftmost
non-overlapping occurrence of the two-character separator. -/
def splitCS : List Char → List (List Char)
  | [] => [[]]
  | ',' :: ' ' :: rest => [] :: splitCS rest
  | c :: rest =>
    match splitCS rest with
    | [] => [[c]]
    | g :: gs => (c :: g) :: gs

/-- JS `s.split(", ")`. -/
def jsSplit (s : String) : List String :=
  (splitCS s.data).map String.mk

/-- JS `.` (no `s` flag): any character except a line terminator. -/
def dotChar (c : Char) : Bool :=
  !(c == '\n' || c == '\r' || c.val == 0x2028 || c.val == 0x2029)

/-- The character class `[0-9A-Za-z-_]` of `PLACE_REGEXP`. -/
def tokChar (c : Char) : Bool :=
  ('0' ≤ c && c ≤ '9') || ('A' ≤ c && c ≤ 'Z') || ('a' ≤ c && c ≤ 'z') ||
    c == '-' || c == '_'

/-- The literal-and-wildcard prefix of `PLACE_REGEXP`:
`https:\/\/www.google.com\/maps\/place\/` (the two unescaped dots are
wildcards). -/
def placePrefixPat : List (Option Char) :=
  ("https://www".data.map some) ++ [none] ++ ("google".data.map some) ++
    [none] ++ ("com/maps/place/".data.map some)

/-- Match a literal/wildcard pattern at the head of the input, returning
the rest. -/
def matchPat : List (Option Char) → List Char → Option (List Char)
  | [], l => some l
  | _ :: _, [] => none
  | some c :: ps, x :: xs => if x = c then matchPat ps xs else none
  | none :: ps, x :: xs => if dotChar x then matchPat ps xs else none

/-- Match `[0-9]+s([0-9A-Za-z-_]+)` at the head of the input and return
the capture (greedy, as in JS: maximal digit run, then `s`, then maximal
token run). -/
def matchIdTail (l : List Char) : Option (List Char) :=
  let ds := l.takeWhile Char.isDigit
  if ds = [] then none
  else
    match l.drop ds.length with
    | 's' :: rest =>
      let tk := rest.takeWhile tokChar
      if tk = [] then none else some tk
    | _ => none

/-- Greedy `.+` followed by a literal: try the longest wildcard run
first (JS backtracking order), then hand the remainder to the
continuation; on continuation failure backtrack to a shorter run. -/
def dotPlusThen {α : Type} (lit : List Char) (cont : List Char → Option α)
    (l : List Char) : Option α :=
  ((List.range (l.length + 1)).reverse).findSome? (fun j =>
    if 1 ≤ j && (l.take j).all dotChar && lit.isPrefixOf (l.drop j) then
      cont (l.drop (j + lit.length))
    else none)

/-- The part of `PLACE_REGEXP` after the prefix:
`.+\/data=!.+!.+![0-9]+s([0-9A-Za-z-_]+)`. -/
def matchAfterPrefix (l : List Char) : Option (List Char) :=
  dotPlusThen "/data=!".data (fun l1 =>
    dotPlusThen "!".data (fun l2 =>
      dotPlusThen "!".data (fun l3 => matchIdTail l3) l2) l1) l

/-- `PLACE_REGEXP.exec(s)?.[1]`: leftmost match start, greedy inside;
returns the captured place identity. -/
def execPlaceRegexp (s : String) : Option String :=
  let l := s.data
  ((List.range (l.length + 1)).findSome? (fun i =>
    match matchPat placePrefixPat (l.drop i) with
    | none => none
    | some rest => matchAfterPrefix rest)).map String.mk

/-- The body of `processRow` after the record is built (lines 447-537).
`lookup` is the Places API: `none` models a non-ok response.  A result
of `none` models a runtime `TypeError` escaping `processRow` (an access
on `undefined` behind a `!` assertion). -/
def processRecord (lookup : String → Option PlaceMetadata) (rowIdx : Nat)
    (data : RowRecord) : Option RowOutcome :=
  match data.gmaps with
  | none => none
  | some gm =>
    match gm.chipUri with
    | none => some (.err { error := "No maps URL in row " ++ toString rowIdx,
                           metaPlaceId := none, metaRow := some data })
    | some mapsUrl =>
      if mapsUrl = "" then
        some (.err { error := "No maps URL in row " ++ toString rowIdx,
                     metaPlaceId := none, metaRow := some data })
      else
        match execPlaceRegexp mapsUrl with
        | none => some (.err { error := "No maps place ID in url " ++ mapsUrl,
                               metaPlaceId := none, metaRow := some data })
        | some placeId =>
          match lookup placeId with
          | none => some (.err { error := "No place information for " ++ mapsUrl,
                                 metaPlaceId := some placeId, metaRow := some data })
          | some placeMetadata =>
            match data.tipo with
            | none => none
            | some tipoCell =>
              match data.cidade with
              | none => none
              | some cidadeCell =>
                match data.user with
                | none => none
                | some userCell =>
                  match data.rank with
                  | none => none
                  | some rankCell =>
                    match rankCell.effectiveValue with
                    | none => none
                    | some ev =>
                      match data.notas with
                      | none => none
                      | some notasCell =>
                        some (.ok {
                          types := match tipoCell.formattedValue with
                            | some s => jsSplit s
                            | none => []
                          location := {
                            city := cidadeCell.formattedValue
                            name := gm.formattedValue
                            metadata := placeMetadata
                            url := mapsUrl
                            placeId := placeId }
                          reviews := [{
                            user := userCell.formattedValue
                            ranking := ev.numberValue.getD 0
                            notes := notasCell.formattedValue.getD "" }] })

/-- `Schema$ConditionValue` container: `condition.values` mapped to
`userEnteredValue`. -/
structure SCondition where
  values : Option (List String)
deriving DecidableEq, Repr

/-- `Schema$TableColumnProperties`: the column name and the data
validation condition (used only for the `Tipo` column). -/
structure ColumnProps where
  columnName : Option String
  condition : Option SCondition
deriving DecidableEq, Repr

/-- `Object.fromEntries(row.values.map((v, colIdx) => [...]))`: zip the
cells with the column properties by position.  A cell beyond the column
list makes `columnProperties[colIdx].columnName!` a `TypeError`
(`none`). -/
def buildEntries : List ColumnProps → List CellData →
    Option (List (String × CellData))
  | _, [] => some []
  | [], _ :: _ => none
  | p :: ps, c :: cs =>
    (buildEntries ps cs).map (fun es => (p.columnName.getD "undefined", c) :: es)

/-- Object-key lookup after `Object.fromEntries`: the last entry with a
given key wins. -/
def lookupLast (k : String) (es : List (String × CellData)) : Option CellData :=
  (es.reverse.find? (fun e => e.1 == k)).map (·.2)

/-- Project the entry list to the six recognized column names. -/
def recordOf (es : List (String × CellData)) : RowRecord :=
  { tipo := lookupLast "Tipo" es
    cidade := lookupLast "Cidade" es
    gmaps := lookupLast "Google Maps" es
    user := lookupLast "User" es
    rank := lookupLast "Rank" es
    notas := lookupLast "Notas" es }

/-- `processRow`: build the record from `row.values` (`none` values
models `row.values!.map` throwing), then run the row logic. -/
def processRow (lookup : String → Option PlaceMetadata)
    (columnProperties : List ColumnProps) (rowIdx : Nat)
    (values : Option (List CellData)) : Option RowOutcome :=
  match values with
  | none => none
  | some cells =>
    match buildEntries columnProperties cells with
    | none => none
    | some es => processRecord lookup rowIdx (recordOf es)

/-- The accumulator of the merge reducer: insertion-ordered `Map` of
placeId to `Place`, the error list, and the three insertion-ordered
uniqueness `Set`s. -/
structure MergeAcc where
  places : List (String × Place)
  errors : List ErrorData
  uTypes : List String
  uUsers : List (Option String)
  uCities : List (Option String)
deriving DecidableEq, Repr

/-- `Map.get`. -/
def mapGet (m : List (String × Place)) (k : String) : Option Place :=
  (m.find? (fun e => e.1 == k)).map (·.2)

/-- `Map.set`: update in place when the key exists (keeping its
position), append otherwise. -/
def mapSet (m : List (String × Place)) (k : String) (v : Place) :
    List (String × Place) :=
  if m.any (fun e => e.1 == k) then
    m.map (fun e => if e.1 == k then (k, v) else e)
  else
    m ++ [(k, v)]

/-- The duplicate-identity merge: `dupe.reviews.push(data.reviews[0])`
and `dupe.types = Array.from(new Set([...dupe.types, ...data.types]))`.
All other fields of `dupe` are kept. -/
def mergeInto (dupe : Place) (data : Place) : Place :=
  { dupe with
    reviews := dupe.reviews ++ [data.reviews.headI]
    types := jsDedup (dupe.types ++ data.types) }

/-- The initial accumulator of the reduce. -/
def initAcc : MergeAcc :=
  { places := [], errors := [], uTypes := [], uUsers := [], uCities := [] }

/-- One step of the merge reducer (lines 312-336). -/
def mergeStep (agg : MergeAcc) (row : RowOutcome) : MergeAcc :=
  match row with
  | .err e => { agg with errors := agg.errors ++ [e] }
  | .ok data =>
    let placeId := data.location.placeId
    let agg1 := { agg with
      uTypes := data.types.foldl jsAddUnique agg.uTypes
      uUsers := (data.reviews.map (fun (r : Review) => r.user)).foldl jsAddUnique agg.uUsers
      uCities := jsAddUnique agg.uCities data.location.city }
    match mapGet agg1.places placeId with
    | some dupe => { agg1 with places := mapSet agg1.places placeId (mergeInto dupe data) }
    | none => { agg1 with places := mapSet agg1.places placeId data }

/-- The whole reduce over the ordered outcome list. -/
def mergeRows (outs : List RowOutcome) : MergeAcc :=
  outs.foldl mergeStep initAcc

/-- `indexToSheetsColumn`'s loop body as structural recursion: emit the
digit `n % 26`, recurse on `n / 26 - 1` while that stays non-negative. -/
def natToCol (n : Nat) : List Char :=
  let c := Char.ofNat (65 + n % 26)
  if n < 26 then [c] else natToCol (n / 26 - 1) ++ [c]
termination_by n
decreasing_by
  have h1 : n / 26 < n := Nat.div_lt_self (by omega) (by omega)
  omega

/-- `indexToSheetsColumn` from `app/lib/encode.ts`: throws on negative
input, otherwise returns the letter encoding. -/
def indexToSheetsColumn (index : Int) : Except String String :=
  if index < 0 then .error "Index must be non-negative"
  else .ok (String.mk (natToCol index.toNat))

/-- `Schema$GridRange` of a table, all four bounds present (the code
asserts them with `!`). -/
structure STableRange where
  startColumnIndex : Nat
  startRowIndex : Nat
  endColumnIndex : Nat
  endRowIndex : Nat
deriving DecidableEq, Repr

/-- `Schema$Table`: optional range and optional column properties. -/
structure STable where
  range : Option STableRange
  columnProperties : Option (List ColumnProps)
deriving DecidableEq, Repr

/-- One raw grid row: `Schema$RowData` (`values` may be absent). -/
structure RawRow where
  values : Option (List CellData)
deriving DecidableEq, Repr

/-- `Schema$GridData` restricted to `rowData`. -/
structure SheetData where
  rowData : Option (List RawRow)
deriving DecidableEq, Repr

/-- `Schema$Sheet` restricted to `tables` and `data`. -/
structure Sheet where
  tables : Option (List STable)
  data : Option (List SheetData)
deriving DecidableEq, Repr

/-- `Schema$Spreadsheet` restricted to `sheets`. -/
structure Spreadsheet where
  sheets : Option (List Sheet)
deriving DecidableEq, Repr

/-- `getTableRange` (lines 360-398).  `meta` is the parsed metadata
response; `none` models `!res.ok`.  Errors model the thrown
`Error`s. -/
def getTableRange (meta : Option Spreadsheet) (sheetIndex tableIndex : Nat) :
    Except String String :=
  match meta with
  | none => .error "Failed to read sheet metadata."
  | some data =>
    match ((data.sheets.bind (fun l => l.get? sheetIndex)).bind
        (fun s => s.tables)).bind (fun l => l.get? tableIndex) with
    | none => .error ("Table #" ++ toString tableIndex ++ " not found in sheet #"
        ++ toString sheetIndex)
    | some table =>
      match table.range with
      | none => .error "Table has no defined range. Should be unreachable."
      | some r =>
        .ok (String.mk (natToCol r.startColumnIndex) ++ toString r.startRowIndex
          ++ ":" ++ String.mk (natToCol r.endColumnIndex) ++ toString r.endRowIndex)

/-- The terminal artifact `{places, uniques, rows, errors}` returned by
`fetchData`. -/
structure Artifact where
  places : List Place
  uniquesTypes : List String
  uniquesUsers : List (Option String)
  uniquesCities : List (Option String)
  rows : List RowOutcome
  errors : List ErrorData
deriving DecidableEq, Repr

/-- `map` with the element index, as in `rowData.slice(2).map((row, rowIdx) => ...)`. -/
def mapIdxFrom {α β : Type} (f : Nat → α → β) : Nat → List α → List β
  | _, [] => []
  | i, a :: as => f i a :: mapIdxFrom f (i + 1) as

/-- `Promise.all`: all row promises must resolve; one rejected promise
(a modelled `TypeError`, `none`) rejects the whole batch. -/
def seqOptions : List (Option RowOutcome) → Option (List RowOutcome)
  | [] => some []
  | none :: _ => none
  | some o :: rest => (seqOptions rest).map (fun l => o :: l)

/-- `fetchData` (lines 233-358).  `meta` is the metadata response used
by `getTableRange`, `grid` the grid response (`none` models `!res.ok`),
`lookup` the Places API.  `Except.error` covers both thrown `Response`s
and modelled runtime `TypeError`s. -/
def fetchData (meta grid : Option Spreadsheet)
    (lookup : String → Option PlaceMetadata) : Except String Artifact :=
  match getTableRange meta 0 0 with
  | .error e => .error e
  | .ok _tableRange =>
    match grid with
    | none => .error "error retrieving google sheets data"
    | some data =>
      match data.sheets with
      | none => .error "TypeError: cannot index into undefined sheets"
      | some sheetList =>
        let sheet := sheetList.get? 0
        let table := (sheet.bind (fun s => s.tables)).bind (fun l => l.get? 0)
        let columnProperties := table.bind (fun t => t.columnProperties)
        let rowData := ((sheet.bind (fun s => s.data)).bind
          (fun l => l.get? 0)).bind (fun d => d.rowData)
        let typeColumn := columnProperties.bind
          (List.find? (fun c => c.columnName == some "Tipo"))
        match typeColumn.bind (fun c => c.condition) with
        | none => .error "TypeError: cannot read values of undefined condition"
        | some cond =>
          let placeTypes := cond.values
          match table, rowData, columnProperties, placeTypes with
          | some _table, some rows, some colProps, some _placeTypes =>
            let procd := mapIdxFrom
              (fun i r => processRow lookup colProps i (RawRow.values r)) 0 (rows.drop 2)
            match seqOptions procd with
            | none => .error "TypeError: unhandled exception in processRow"
            | some outs =>
              let acc := mergeRows outs
              .ok { places := acc.places.map (fun e => e.2)
                    uniquesTypes := acc.uTypes
                    uniquesUsers := acc.uUsers
                    uniquesCities := acc.uCities
                    rows := outs
                    errors := acc.errors }
          | _, _, _, _ => .error "expected data not found"

/-- The success outcome carrying identity `p`, if `o` is one. -/
def matchD (p : String) : RowOutcome → Option Place
  | .ok d => if d.location.placeId = p then some d else none
  | .err _ => none

/-- The effect of one outcome on the place stored under identity `p`
(abstracted from `mergeStep`). -/
def updOpt (p : String) (cur : Option Place) (o : RowOutcome) : Option Place :=
  match matchD p o with
  | none => cur
  | some d =>
    match cur with
    | none => some d
    | some pl => some (mergeInto pl d)

/-- The types a successful outcome contributes to `uniques.types`. -/
def okTypes : RowOutcome → List String
  | .ok d => d.types
  | .err _ => []

/-- The users a successful outcome contributes to `uniques.users`. -/
def okUsers : RowOutcome → List (Option String)
  | .ok d => d.reviews.map (fun r => r.user)
  | .err _ => []

/-- The city a successful outcome contributes to `uniques.cities`. -/
def okCities : RowOutcome → List (Option String)
  | .ok d => [d.location.city]
  | .err _ => []

/-- The error payload of a failed outcome. -/
def errOf : RowOutcome → Option ErrorData
  | .ok _ => none
  | .err e => some e

/-- A success outcome carries exactly one review (what `processRow`
guarantees for every success it produces). -/
def okSingleReview : RowOutcome → Prop
  | .ok d => d.reviews.length = 1
  | .err _ => True

/-- Recomputing the distinct types directly from a places array
(the spec's description of `uniques.types`). -/
def recomputeTypes (places : List Place) : List String :=
  jsDedup ((places.map (fun p => p.types)).flatten)

/-- Recomputing the distinct users directly from a places array. -/
def recomputeUsers (places : List Place) : List (Option String) :=
  jsDedup ((places.map (fun p => p.reviews.map (fun r => r.user))).flatten)

/-- Recomputing the distinct cities directly from a places array. -/
def recomputeCities (places : List Place) : List (Option String) :=
  jsDedup (places.map (fun p => p.location.city))

/-- The keys of the working place map. -/
def placeKeys (m : List (String × Place)) : List String :=
  m.map (fun e => e.1)

/-- Specification-side definition, from the claim's words: the value of
a letter (`A = 1`, …, `Z = 26`) in the claimed bijective base-26,
1-indexed encoding. -/
def letterVal (c : Char) : Nat := c.toNat - 64

/-- Specification-side definition, from the claim's words: the numeric
value of a column-letter string under the claimed bijective base-26
encoding (index `n` is encoded by the string of value `n + 1`). -/
def colValue (l : List Char) : Nat :=
  l.foldl (fun a c => a * 26 + letterVal c) 0

/-- Decidability of the single-review shape, so concrete witnesses can
be checked by `decide`. -/
instance : DecidablePred okSingleReview := fun o =>
  match o with
  | .ok d => inferInstanceAs (Decidable (d.reviews.length = 1))
  | .err _ => inferInstanceAs (Decidable True)

/-- A concrete Maps URL whose extracted identity is `abc123`. -/
def exUrl : String := "https://www.google.com/maps/place/X/data=!a!b!1sabc123"

/-- A concrete enrichment payload. -/
def exMeta0 : PlaceMetadata :=
  { latitude := 1, longitude := 2, displayNameText := "X", displayNameLang := "pt" }

/-- A concrete Places lookup that succeeds exactly on `abc123`. -/
def exLookup : String → Option PlaceMetadata := fun p =>
  if p = "abc123" then some exMeta0 else none

/-- A Places lookup whose every response is non-success. -/
def exLookupNone : String → Option PlaceMetadata := fun _ => none

/-- A text-only cell. -/
def exCellText (s : String) : CellData :=
  { formattedValue := some s, effectiveValue := none, chipUri := none }

/-- An entirely empty cell. -/
def exEmptyCell : CellData :=
  { formattedValue := none, effectiveValue := none, chipUri := none }

/-- The Google Maps smart-chip cell pointing at `exUrl`. -/
def exGmapsCell : CellData :=
  { formattedValue := some "X", effectiveValue := none, chipUri := some exUrl }

/-- A Rank cell with numeric effective value `n`. -/
def exRankCell (n : Int) : CellData :=
  { formattedValue := none, effectiveValue := some { numberValue := some n }, chipUri := none }

/-- Scenario row A: types `["Bar"]`, review `{x, 4}`. -/
def exRowA : RowRecord :=
  { tipo := some (exCellText "Bar"), cidade := some (exCellText "Lisboa")
    gmaps := some exGmapsCell, user := some (exCellText "x")
    rank := some (exRankCell 4), notas := some exEmptyCell }

/-- Scenario row B: types `["Café"]`, review `{y, 0}`, same identity. -/
def exRowB : RowRecord :=
  { tipo := some (exCellText "Café"), cidade := some (exCellText "Porto")
    gmaps := some exGmapsCell, user := some (exCellText "y")
    rank := some (exRankCell 0), notas := some exEmptyCell }

/-- A row whose `Tipo` cell repeats a type: `"Bar, Bar"`. -/
def exRowDup : RowRecord :=
  { tipo := some (exCellText "Bar, Bar"), cidade := some (exCellText "Lisboa")
    gmaps := some exGmapsCell, user := some (exCellText "x")
    rank := some (exRankCell 4), notas := some exEmptyCell }

/-- A row whose `Rank` cell is present but has no `effectiveValue`. -/
def exRowNoRank : RowRecord :=
  { tipo := some (exCellText "Bar"), cidade := some (exCellText "Lisboa")
    gmaps := some exGmapsCell, user := some (exCellText "x")
    rank := some exEmptyCell, notas := some exEmptyCell }

/-- A row whose `Google Maps` cell carries no rich-link chip. -/
def exRowNoLink : RowRecord :=
  { tipo := some (exCellText "Bar"), cidade := some (exCellText "Lisboa")
    gmaps := some (exCellText "X"), user := some (exCellText "x")
    rank := some (exRankCell 4), notas := some exEmptyCell }

/-- The success payload `processRow` produces for `exRowA`. -/
def exPlaceA : Place :=
  { types := ["Bar"]
    location := { city := some "Lisboa", name := some "X", metadata := exMeta0,
                  url := exUrl, placeId := "abc123" }
    reviews := [{ user := some "x", ranking := 4, notes := "" }] }

/-- The success payload `processRow` produces for `exRowB`. -/
def exPlaceB : Place :=
  { types := ["Café"]
    location := { city := some "Porto", name := some "X", metadata := exMeta0,
                  url := exUrl, placeId := "abc123" }
    reviews := [{ user := some "y", ranking := 0, notes := "" }] }

/-- The success payload `processRow` produces for `exRowDup`. -/
def exPlaceDup : Place :=
  { types := ["Bar", "Bar"]
    location := { city := some "Lisboa", name := some "X", metadata := exMeta0,
                  url := exUrl, placeId := "abc123" }
    reviews := [{ user := some "x", ranking := 4, notes := "" }] }

/-- The place obtained by merging `exPlaceB` into `exPlaceA`. -/
def exMergedPl : Place :=
  { types := ["Bar", "Café"]
    location := { city := some "Lisboa", name := some "X", metadata := exMeta0,
                  url := exUrl, placeId := "abc123" }
    reviews := [{ user := some "x", ranking := 4, notes := "" },
                { user := some "y", ranking := 0, notes := "" }] }

/-- Metadata whose first sheet has an empty table list. -/
def exSpBad : Spreadsheet :=
  { sheets := some [{ tables := some [], data := none }] }

theorem mem_jsAddUnique {α : Type} [DecidableEq α] (l : List α) (x y : α) :
    y ∈ jsAddUnique l x ↔ y ∈ l ∨ y = x := by
  unfold jsAddUnique
  by_cases h : x ∈ l
  · simp only [h, if_true]
    constructor
    · exact Or.inl
    · rintro (hy | rfl)
      · exact hy
      · exact h
  · simp [h]

theorem mem_foldl_jsAddUnique {α : Type} [DecidableEq α] (l : List α) :
    ∀ (acc : List α) (y : α), y ∈ l.foldl jsAddUnique acc ↔ y ∈ acc ∨ y ∈ l := by
  induction l with
  | nil => simp
  | cons h t ih =>
    intro acc y
    simp only [List.foldl_cons, ih, mem_jsAddUnique, List.mem_cons]
    tauto

theorem mem_jsDedup {α : Type} [DecidableEq α] (l : List α) (y : α) :
    y ∈ jsDedup l ↔ y ∈ l := by
  unfold jsDedup
  simp [mem_foldl_jsAddUnique]

theorem jsAddUnique_nodup {α : Type} [DecidableEq α] (l : List α) (x : α)
    (h : l.Nodup) : (jsAddUnique l x).Nodup := by
  unfold jsAddUnique
  by_cases hx : x ∈ l
  · simpa [hx]
  · simp only [hx, if_false]
    simpa [List.nodup_append] using ⟨h, hx⟩

theorem foldl_jsAddUnique_nodup {α : Type} [DecidableEq α] (l : List α) :
    ∀ acc : List α, acc.Nodup → (l.foldl jsAddUnique acc).Nodup := by
  induction l with
  | nil => simp
  | cons h t ih =>
    intro acc hacc
    exact ih _ (jsAddUnique_nodup _ _ hacc)

theorem jsDedup_nodup {α : Type} [DecidableEq α] (l : List α) :
    (jsDedup l).Nodup :=
  foldl_jsAddUnique_nodup l [] List.nodup_nil

theorem foldl_jsAddUnique_of_nodup {α : Type} [DecidableEq α] (l : List α) :
    ∀ acc : List α, l.Nodup → (∀ x ∈ l, x ∉ acc) →
      l.foldl jsAddUnique acc = acc ++ l := by
  induction l with
  | nil => simp
  | cons h t ih =>
    intro acc hnd hdisj
    have hh : h ∉ acc := hdisj h (by simp)
    have hstep : jsAddUnique acc h = acc ++ [h] := by
      unfold jsAddUnique
      simp [hh]
    simp only [List.foldl_cons, hstep]
    rw [ih (acc ++ [h]) (List.Nodup.of_cons hnd)]
    · simp
    · intro x hx
      simp only [List.mem_append, List.mem_singleton]
      rintro (hxa | rfl)
      · exact hdisj x (List.mem_cons_of_mem _ hx) hxa
      · exact (List.nodup_cons.mp hnd).1 hx

theorem jsDedup_idem {α : Type} [DecidableEq α] (l : List α) :
    jsDedup (jsDedup l) = jsDedup l := by
  have h := foldl_jsAddUnique_of_nodup (jsDedup l) [] (jsDedup_nodup l) (by simp)
  simpa [jsDedup] using h

theorem jsDedup_append {α : Type} [DecidableEq α] (a b : List α) :
    jsDedup (a ++ b) = b.foldl jsAddUnique (jsDedup a) := by
  unfold jsDedup
  exact List.foldl_append _ _ _ _

theorem jsDedup_absorb {α : Type} [DecidableEq α] (a b : List α) :
    jsDedup (jsDedup a ++ b) = jsDedup (a ++ b) := by
  rw [jsDedup_append, jsDedup_append, jsDedup_idem]

theorem mapGet_cons (e : String × Place) (m : List (String × Place)) (p : String) :
    mapGet (e :: m) p = if e.1 = p then some e.2 else mapGet m p := by
  unfold mapGet
  rw [List.find?_cons]
  by_cases h : e.1 = p
  · have hb : (e.1 == p) = true := beq_iff_eq.mpr h
    simp [hb, h]
  · have hb : (e.1 == p) = false := beq_eq_false_iff_ne.mpr h
    simp [hb, h]

theorem mapGet_eq_none_of_not_any (m : List (String × Place)) (k : String)
    (h : ¬ m.any (fun e => e.1 == k)) : mapGet m k = none := by
  unfold mapGet
  rw [List.find?_eq_none.mpr]
  · rfl
  · intro e he hek
    exact h (List.any_eq_true.mpr ⟨e, he, hek⟩)

theorem mapGet_map_update_ne (m : List (String × Place)) (k p : String) (v : Place)
    (h : p ≠ k) :
    mapGet (m.map (fun e => if e.1 == k then (k, v) else e)) p = mapGet m p := by
  induction m with
  | nil => rfl
  | cons e rest ih =>
    simp only [List.map_cons]
    by_cases hek : e.1 = k
    · have hb : (e.1 == k) = true := beq_iff_eq.mpr hek
      rw [hb]
      simp only [if_true]
      rw [mapGet_cons, mapGet_cons]
      have hkp : ¬ (k = p) := fun hkp => h hkp.symm
      have hep : ¬ (e.1 = p) := by rw [hek]; exact hkp
      simp only [hkp, if_false, hep, ih]
    · have hb : (e.1 == k) = false := beq_eq_false_iff_ne.mpr hek
      rw [hb]
      simp only [Bool.false_eq_true, if_false]
      rw [mapGet_cons, mapGet_cons]
      by_cases hep : e.1 = p
      · simp [hep]
      · simp only [hep, if_false, ih]

theorem mapGet_map_update_self (m : List (String × Place)) (k : String) (v : Place)
    (h : m.any (fun e => e.1 == k)) :
    mapGet (m.map (fun e => if e.1 == k then (k, v) else e)) k = some v := by
  induction m with
  | nil => simp at h
  | cons e rest ih =>
    simp only [List.map_cons]
    by_cases hek : e.1 = k
    · have hb : (e.1 == k) = true := beq_iff_eq.mpr hek
      rw [hb]
      simp [mapGet_cons]
    · have hb : (e.1 == k) = false := beq_eq_false_iff_ne.mpr hek
      rw [hb]
      simp only [Bool.false_eq_true, if_false, mapGet_cons, hek, if_false]
      apply ih
      simp only [List.any_cons, hb, Bool.false_or] at h
      exact h

theorem mapGet_append_singleton_of_some (m : List (String × Place)) (e : String × Place)
    (p : String) (x : Place) (h : mapGet m p = some x) :
    mapGet (m ++ [e]) p = some x := by
  induction m with
  | nil => simp [mapGet] at h
  | cons a rest ih =>
    rw [List.cons_append, mapGet_cons]
    rw [mapGet_cons] at h
    by_cases ha : a.1 = p
    · simpa [ha] using h
    · simp only [ha, if_false] at h ⊢
      exact ih h

theorem mapGet_append_singleton_of_none (m : List (String × Place)) (k p : String)
    (v : Place) (h : mapGet m p = none) :
    mapGet (m ++ [(k, v)]) p = if k = p then some v else none := by
  induction m with
  | nil =>
    rw [List.nil_append, mapGet_cons]
    by_cases hk : k = p <;> simp [hk, mapGet]
  | cons a rest ih =>
    rw [List.cons_append, mapGet_cons]
    rw [mapGet_cons] at h
    by_cases ha : a.1 = p
    · simp [ha] at h
    · simp only [ha, if_false] at h ⊢
      exact ih h

theorem mapGet_mapSet (m : List (String × Place)) (k p : String) (v : Place) :
    mapGet (mapSet m k v) p = if p = k then some v else mapGet m p := by
  unfold mapSet
  by_cases hany : m.any (fun e => e.1 == k)
  · rw [if_pos hany]
    by_cases hpk : p = k
    · subst hpk
      simp only [if_true]
      exact mapGet_map_update_self m p v hany
    · simp only [hpk, if_false]
      exact mapGet_map_update_ne m k p v hpk
  · rw [if_neg hany]
    have hk : mapGet m k = none := mapGet_eq_none_of_not_any m k hany
    by_cases hpk : p = k
    · subst hpk
      rw [mapGet_append_singleton_of_none m p p v hk]
      simp
    · cases hx : mapGet m p with
      | some x =>
        rw [mapGet_append_singleton_of_some m _ p x hx]
        simp [hpk]
      | none =>
        rw [mapGet_append_singleton_of_none m k p v hx]
        have hkp : ¬ (k = p) := fun hkp => hpk hkp.symm
        simp [hpk, hkp]

theorem mapGet_mergeStep (agg : MergeAcc) (o : RowOutcome) (p : String) :
    mapGet (mergeStep agg o).places p = updOpt p (mapGet agg.places p) o := by
  cases o with
  | err e => rfl
  | ok d =>
    simp only [mergeStep, updOpt, matchD]
    cases hm : mapGet agg.places d.location.placeId with
    | some dupe =>
      simp only [hm]
      rw [mapGet_mapSet]
      by_cases hid : d.location.placeId = p
      · subst hid
        simp [hm]
      · have : ¬ (p = d.location.placeId) := fun hh => hid hh.symm
        simp [this, hid]
    | none =>
      simp only [hm]
      rw [mapGet_mapSet]
      by_cases hid : d.location.placeId = p
      · subst hid
        simp [hm]
      · have : ¬ (p = d.location.placeId) := fun hh => hid hh.symm
        simp [this, hid]

theorem mapGet_foldl_mergeStep (outs : List RowOutcome) :
    ∀ (agg : MergeAcc) (p : String),
      mapGet ((outs.foldl mergeStep agg).places) p =
        outs.foldl (updOpt p) (mapGet agg.places p) := by
  induction outs with
  | nil => intro agg p; rfl
  | cons o rest ih =>
    intro agg p
    simp only [List.foldl_cons]
    rw [ih, mapGet_mergeStep]

theorem mapGet_mergeRows (outs : List RowOutcome) (p : String) :
    mapGet (mergeRows outs).places p = outs.foldl (updOpt p) none := by
  unfold mergeRows
  rw [mapGet_foldl_mergeStep]
  rfl

theorem foldl_updOpt_some (outs : List RowOutcome) (p : String) :
    ∀ pl : Place, outs.foldl (updOpt p) (some pl) =
      some ((outs.filterMap (matchD p)).foldl mergeInto pl) := by
  induction outs with
  | nil => intro pl; rfl
  | cons o rest ih =>
    intro pl
    simp only [List.foldl_cons, List.filterMap_cons]
    cases hm : matchD p o with
    | none =>
      simp only [updOpt, hm]
      exact ih pl
    | some d =>
      simp only [updOpt, hm, List.foldl_cons]
      exact ih (mergeInto pl d)

theorem foldl_updOpt_none (outs : List RowOutcome) (p : String) :
    outs.foldl (updOpt p) none =
      match outs.filterMap (matchD p) with
      | [] => none
      | d :: ds => some (ds.foldl mergeInto d) := by
  induction outs with
  | nil => rfl
  | cons o rest ih =>
    simp only [List.foldl_cons, List.filterMap_cons]
    cases hm : matchD p o with
    | none =>
      simp only [updOpt, hm]
      exact ih
    | some d =>
      simp only [updOpt, hm]
      exact foldl_updOpt_some rest p d

theorem reviews_foldl_mergeInto (ds : List Place) :
    ∀ pl : Place, ((ds.foldl mergeInto pl)).reviews =
      pl.reviews ++ ds.map (fun d => d.reviews.headI) := by
  induction ds with
  | nil => intro pl; simp
  | cons d rest ih =>
    intro pl
    simp only [List.foldl_cons, List.map_cons, ih, mergeInto]
    simp [List.append_assoc]

theorem location_foldl_mergeInto (ds : List Place) :
    ∀ pl : Place, ((ds.foldl mergeInto pl)).location = pl.location := by
  induction ds with
  | nil => intro pl; rfl
  | cons d rest ih =>
    intro pl
    simp only [List.foldl_cons, ih, mergeInto]

theorem types_foldl_mergeInto_ne_nil (ds : List Place) :
    ∀ pl : Place, ds ≠ [] → ((ds.foldl mergeInto pl)).types =
      jsDedup (pl.types ++ (ds.map (fun d => d.types)).flatten) := by
  induction ds with
  | nil => intro pl h; exact absurd rfl h
  | cons d rest ih =>
    intro pl _
    cases rest with
    | nil =>
      simp [mergeInto]
    | cons d2 rest2 =>
      rw [List.foldl_cons]
      rw [ih (mergeInto pl d) (by simp)]
      show jsDedup ((mergeInto pl d).types ++ _) = _
      simp only [mergeInto]
      rw [jsDedup_absorb]
      simp [List.append_assoc]

theorem mem_types_foldl_mergeInto (ds : List Place) :
    ∀ (pl : Place) (x : String), (x ∈ ((ds.foldl mergeInto pl)).types ↔
      x ∈ pl.types ∨ ∃ d ∈ ds, x ∈ d.types) := by
  induction ds with
  | nil => simp
  | cons d rest ih =>
    intro pl x
    simp only [List.foldl_cons, ih, mergeInto, mem_jsDedup, List.mem_append,
      List.mem_cons]
    constructor
    · rintro ((h | h) | ⟨d', hd', hx⟩)
      · exact Or.inl h
      · exact Or.inr ⟨d, Or.inl rfl, h⟩
      · exact Or.inr ⟨d', Or.inr hd', hx⟩
    · rintro (h | ⟨d', hd' | hd', hx⟩)
      · exact Or.inl (Or.inl h)
      · subst hd'
        exact Or.inl (Or.inr hx)
      · exact Or.inr ⟨d', hd', hx⟩

theorem charOfNat_toNat {m : Nat} (h : m < 55296) : (Char.ofNat m).toNat = m := by
  have hv : Nat.isValidChar m := Or.inl h
  simp [Char.ofNat, hv, Char.toNat, Char.ofNatAux, UInt32.toNat, BitVec.toNat_ofNatLt]

theorem natToCol_ne_nil (n : Nat) : natToCol n ≠ [] := by
  rw [natToCol]
  by_cases h : n < 26 <;> simp [h]

theorem colValue_append_singleton (l : List Char) (c : Char) :
    colValue (l ++ [c]) = colValue l * 26 + letterVal c := by
  unfold colValue
  rw [List.foldl_append]
  rfl

theorem natToCol_digit_toNat (n : Nat) :
    (Char.ofNat (65 + n % 26)).toNat = 65 + n % 26 := by
  have h : n % 26 < 26 := Nat.mod_lt _ (by omega)
  exact charOfNat_toNat (by omega)

theorem natToCol_value : ∀ n : Nat, colValue (natToCol n) = n + 1 := by
  intro n
  induction n using Nat.strong_induction_on with
  | _ n ih =>
    rw [natToCol]
    by_cases h : n < 26
    · simp only [h, if_true]
      show colValue [Char.ofNat (65 + n % 26)] = n + 1
      have hd := natToCol_digit_toNat n
      have hmod : n % 26 = n := Nat.mod_eq_of_lt h
      simp only [colValue, List.foldl_cons, List.foldl_nil, letterVal, hd]
      omega
    · simp only [h, if_false]
      have hlt : n / 26 - 1 < n := by
        have h1 : n / 26 < n := Nat.div_lt_self (by omega) (by omega)
        omega
      rw [colValue_append_singleton, ih _ hlt]
      have hd := natToCol_digit_toNat n
      have hge : 1 ≤ n / 26 := by
        have := Nat.div_le_div_right (c := 26) (Nat.le_of_not_lt h)
        simpa using this
      have hdm := Nat.div_add_mod n 26
      simp only [letterVal, hd]
      omega

theorem natToCol_digits_in_range : ∀ (n : Nat) (c : Char), c ∈ natToCol n →
    'A' ≤ c ∧ c ≤ 'Z' := by
  intro n
  induction n using Nat.strong_induction_on with
  | _ n ih =>
    intro c hc
    rw [natToCol] at hc
    have hd := natToCol_digit_toNat n
    have hm : n % 26 < 26 := Nat.mod_lt _ (by omega)
    by_cases h : n < 26
    · simp only [h, if_true, List.mem_singleton] at hc
      subst hc
      have h65 : 65 ≤ (Char.ofNat (65 + n % 26)).toNat := by omega
      have h90 : (Char.ofNat (65 + n % 26)).toNat ≤ 90 := by omega
      exact ⟨h65, h90⟩
    · simp only [h, if_false, List.mem_append, List.mem_singleton] at hc
      rcases hc with hc | rfl
      · have hlt : n / 26 - 1 < n := by
          have h1 : n / 26 < n := Nat.div_lt_self (by omega) (by omega)
          omega
        exact ih _ hlt c hc
      · have h65 : 65 ≤ (Char.ofNat (65 + n % 26)).toNat := by omega
        have h90 : (Char.ofNat (65 + n % 26)).toNat ≤ 90 := by omega
        exact ⟨h65, h90⟩

theorem mergeStep_uTypes (agg : MergeAcc) (o : RowOutcome) :
    (mergeStep agg o).uTypes = (okTypes o).foldl jsAddUnique agg.uTypes := by
  cases o with
  | err e => rfl
  | ok d =>
    simp only [mergeStep, okTypes]
    cases hm : mapGet agg.places d.location.placeId <;> simp [hm]

theorem mergeStep_uUsers (agg : MergeAcc) (o : RowOutcome) :
    (mergeStep agg o).uUsers = (okUsers o).foldl jsAddUnique agg.uUsers := by
  cases o with
  | err e => rfl
  | ok d =>
    simp only [mergeStep, okUsers]
    cases hm : mapGet agg.places d.location.placeId <;> simp [hm]

theorem mergeStep_uCities (agg : MergeAcc) (o : RowOutcome) :
    (mergeStep agg o).uCities = (okCities o).foldl jsAddUnique agg.uCities := by
  cases o with
  | err e => rfl
  | ok d =>
    simp only [mergeStep, okCities]
    cases hm : mapGet agg.places d.location.placeId <;> simp [hm, jsAddUnique]

theorem mergeStep_errors (agg : MergeAcc) (o : RowOutcome) :
    (mergeStep agg o).errors = agg.errors ++ (errOf o).toList := by
  cases o with
  | err e => rfl
  | ok d =>
    simp only [mergeStep, errOf, Option.toList, List.append_nil]
    cases hm : mapGet agg.places d.location.placeId <;> simp [hm]

theorem uTypes_foldl_mergeStep (outs : List RowOutcome) :
    ∀ agg : MergeAcc, ((outs.foldl mergeStep agg)).uTypes =
      ((outs.map okTypes).flatten).foldl jsAddUnique agg.uTypes := by
  induction outs with
  | nil => intro agg; rfl
  | cons o rest ih =>
    intro agg
    simp only [List.foldl_cons, List.map_cons, List.flatten_cons, List.foldl_append]
    rw [ih, mergeStep_uTypes]

theorem uUsers_foldl_mergeStep (outs : List RowOutcome) :
    ∀ agg : MergeAcc, ((outs.foldl mergeStep agg)).uUsers =
      ((outs.map okUsers).flatten).foldl jsAddUnique agg.uUsers := by
  induction outs with
  | nil => intro agg; rfl
  | cons o rest ih =>
    intro agg
    simp only [List.foldl_cons, List.map_cons, List.flatten_cons, List.foldl_append]
    rw [ih, mergeStep_uUsers]

theorem uCities_foldl_mergeStep (outs : List RowOutcome) :
    ∀ agg : MergeAcc, ((outs.foldl mergeStep agg)).uCities =
      ((outs.map okCities).flatten).foldl jsAddUnique agg.uCities := by
  induction outs with
  | nil => intro agg; rfl
  | cons o rest ih =>
    intro agg
    simp only [List.foldl_cons, List.map_cons, List.flatten_cons, List.foldl_append]
    rw [ih, mergeStep_uCities]

theorem errors_foldl_mergeStep (outs : List RowOutcome) :
    ∀ agg : MergeAcc, ((outs.foldl mergeStep agg)).errors =
      agg.errors ++ outs.filterMap errOf := by
  induction outs with
  | nil => intro agg; simp
  | cons o rest ih =>
    intro agg
    simp only [List.foldl_cons, List.filterMap_cons]
    rw [ih, mergeStep_errors]
    cases o with
    | err e => simp [errOf]
    | ok d => simp [errOf]

theorem mergeRows_uTypes (outs : List RowOutcome) :
    (mergeRows outs).uTypes = jsDedup ((outs.map okTypes).flatten) := by
  unfold mergeRows jsDedup
  rw [uTypes_foldl_mergeStep]
  rfl

theorem mergeRows_uUsers (outs : List RowOutcome) :
    (mergeRows outs).uUsers = jsDedup ((outs.map okUsers).flatten) := by
  unfold mergeRows jsDedup
  rw [uUsers_foldl_mergeStep]
  rfl

theorem mergeRows_uCities (outs : List RowOutcome) :
    (mergeRows outs).uCities = jsDedup ((outs.map okCities).flatten) := by
  unfold mergeRows jsDedup
  rw [uCities_foldl_mergeStep]
  rfl

theorem mergeRows_errors (outs : List RowOutcome) :
    (mergeRows outs).errors = outs.filterMap errOf := by
  unfold mergeRows
  rw [errors_foldl_mergeStep]
  rfl

theorem placeKeys_mapSet_any (m : List (String × Place)) (k : String) (v : Place)
    (h : m.any (fun e => e.1 == k)) : placeKeys (mapSet m k v) = placeKeys m := by
  unfold mapSet placeKeys
  rw [if_pos h, List.map_map]
  apply List.map_congr_left
  intro e _
  by_cases hek : e.1 = k
  · have hb : (e.1 == k) = true := beq_iff_eq.mpr hek
    simp [hb, hek]
  · have hb : (e.1 == k) = false := beq_eq_false_iff_ne.mpr hek
    simp [hb, hek]

theorem placeKeys_mapSet_not_any (m : List (String × Place)) (k : String) (v : Place)
    (h : ¬ m.any (fun e => e.1 == k)) :
    placeKeys (mapSet m k v) = placeKeys m ++ [k] := by
  unfold mapSet placeKeys
  rw [if_neg h]
  simp

theorem not_mem_placeKeys_of_not_any (m : List (String × Place)) (k : String)
    (h : ¬ m.any (fun e => e.1 == k)) : k ∉ placeKeys m := by
  intro hk
  unfold placeKeys at hk
  rcases List.mem_map.mp hk with ⟨e, he, hek⟩
  exact h (List.any_eq_true.mpr ⟨e, he, beq_iff_eq.mpr hek⟩)

theorem placeKeys_nodup_mergeStep (agg : MergeAcc) (o : RowOutcome)
    (h : (placeKeys agg.places).Nodup) :
    (placeKeys (mergeStep agg o).places).Nodup := by
  cases o with
  | err e => exact h
  | ok d =>
    simp only [mergeStep]
    cases hm : mapGet agg.places d.location.placeId with
    | some dupe =>
      simp only [hm]
      by_cases hany : agg.places.any (fun e => e.1 == d.location.placeId)
      · simpa [placeKeys_mapSet_any _ _ _ hany] using h
      · show (placeKeys (mapSet agg.places d.location.placeId (mergeInto dupe d))).Nodup
        rw [placeKeys_mapSet_not_any _ _ _ hany]
        simp only [List.nodup_append, List.nodup_singleton]
        exact ⟨h, True.intro, by
          intro a ha hb
          simp only [List.mem_singleton] at hb
          subst hb
          exact not_mem_placeKeys_of_not_any _ _ hany ha⟩
    | none =>
      simp only [hm]
      by_cases hany : agg.places.any (fun e => e.1 == d.location.placeId)
      · simpa [placeKeys_mapSet_any _ _ _ hany] using h
      · show (placeKeys (mapSet agg.places d.location.placeId d)).Nodup
        rw [placeKeys_mapSet_not_any _ _ _ hany]
        simp only [List.nodup_append, List.nodup_singleton]
        exact ⟨h, True.intro, by
          intro a ha hb
          simp only [List.mem_singleton] at hb
          subst hb
          exact not_mem_placeKeys_of_not_any _ _ hany ha⟩

theorem placeKeys_nodup_mergeRows (outs : List RowOutcome) :
    (placeKeys (mergeRows outs).places).Nodup := by
  unfold mergeRows
  have hgen : ∀ agg : MergeAcc, (placeKeys agg.places).Nodup →
      (placeKeys ((outs.foldl mergeStep agg)).places).Nodup := by
    induction outs with
    | nil => intro agg h; exact h
    | cons o rest ih =>
      intro agg h
      simp only [List.foldl_cons]
      exact ih _ (placeKeys_nodup_mergeStep agg o h)
  exact hgen initAcc List.nodup_nil

theorem mem_of_mapGet_eq_some (m : List (String × Place)) (k : String) (pl : Place)
    (h : mapGet m k = some pl) : (k, pl) ∈ m := by
  unfold mapGet at h
  cases hf : m.find? (fun e => e.1 == k) with
  | none => rw [hf] at h; simp at h
  | some e =>
    rw [hf] at h
    simp at h
    have hmem := List.mem_of_find?_eq_some hf
    have hpred := List.find?_some hf
    have hek : e.1 = k := beq_iff_eq.mp hpred
    have : e = (k, pl) := by
      cases e with
      | mk a b =>
        simp only at hek h
        rw [hek, h]
    rw [← this]
    exact hmem

theorem mapGet_eq_some_of_mem (m : List (String × Place)) (k : String) (pl : Place)
    (hnd : (placeKeys m).Nodup) (h : (k, pl) ∈ m) : mapGet m k = some pl := by
  induction m with
  | nil => simp at h
  | cons e rest ih =>
    rw [mapGet_cons]
    rcases List.mem_cons.mp h with rfl | hrest
    · simp
    · have hnd2 : e.1 ∉ placeKeys rest ∧ (placeKeys rest).Nodup := by
        have hc : (e.1 :: placeKeys rest).Nodup := hnd
        exact List.nodup_cons.mp hc
      by_cases hek : e.1 = k
      · exfalso
        have hkmem : k ∈ placeKeys rest := List.mem_map.mpr ⟨(k, pl), hrest, rfl⟩
        rw [hek] at hnd2
        exact hnd2.1 hkmem
      · simp only [hek, if_false]
        exact ih hnd2.2 hrest

theorem splitCS_ne_nil (l : List Char) : splitCS l ≠ [] := by
  rw [splitCS.eq_def]
  split
  · simp
  · simp
  · split <;> simp

theorem jsSplit_ne_nil (s : String) : jsSplit s ≠ [] := by
  unfold jsSplit
  intro h
  exact splitCS_ne_nil s.data (by simpa using h)

theorem processRecord_ok_inv (lookup : String → Option PlaceMetadata) (rowIdx : Nat)
    (data : RowRecord) (d : Place)
    (h : processRecord lookup rowIdx data = some (.ok d)) :
    ∃ (tipoC userC rankC notasC : CellData) (ev : EffectiveValue),
      data.tipo = some tipoC ∧ data.user = some userC ∧ data.rank = some rankC ∧
      data.notas = some notasC ∧ rankC.effectiveValue = some ev ∧
      d.types = (match tipoC.formattedValue with | some s => jsSplit s | none => []) ∧
      d.reviews = [{ user := userC.formattedValue, ranking := ev.numberValue.getD 0,
                     notes := notasC.formattedValue.getD "" }] := by
  unfold processRecord at h
  cases hgm : data.gmaps with
  | none => rw [hgm] at h; exact absurd h (by simp)
  | some gm =>
  rw [hgm] at h
  dsimp only at h
  cases hchip : gm.chipUri with
  | none => rw [hchip] at h; exact absurd h (by simp)
  | some mapsUrl =>
  rw [hchip] at h
  dsimp only at h
  by_cases hurl : mapsUrl = ""
  · rw [if_pos hurl] at h; exact absurd h (by simp)
  · rw [if_neg hurl] at h
    cases hexec : execPlaceRegexp mapsUrl with
    | none => rw [hexec] at h; exact absurd h (by simp)
    | some placeId =>
    rw [hexec] at h
    dsimp only at h
    cases hlk : lookup placeId with
    | none => rw [hlk] at h; exact absurd h (by simp)
    | some meta =>
    rw [hlk] at h
    dsimp only at h
    cases htipo : data.tipo with
    | none => rw [htipo] at h; exact absurd h (by simp)
    | some tipoC =>
    rw [htipo] at h
    dsimp only at h
    cases hcid : data.cidade with
    | none => rw [hcid] at h; exact absurd h (by simp)
    | some cidadeC =>
    rw [hcid] at h
    dsimp only at h
    cases huser : data.user with
    | none => rw [huser] at h; exact absurd h (by simp)
    | some userC =>
    rw [huser] at h
    dsimp only at h
    cases hrank : data.rank with
    | none => rw [hrank] at h; exact absurd h (by simp)
    | some rankC =>
    rw [hrank] at h
    dsimp only at h
    cases hev : rankC.effectiveValue with
    | none => rw [hev] at h; exact absurd h (by simp)
    | some ev =>
    rw [hev] at h
    dsimp only at h
    cases hnotas : data.notas with
    | none => rw [hnotas] at h; exact absurd h (by simp)
    | some notasC =>
    rw [hnotas] at h
    dsimp only at h
    simp only [Option.some.injEq, RowOutcome.ok.injEq] at h
    refine ⟨tipoC, userC, rankC, notasC, ev, rfl, rfl, rfl, rfl, hev, ?_, ?_⟩
    · rw [← h]
    · rw [← h]

theorem matchD_eq_some {p : String} {o : RowOutcome} {d : Place}
    (h : matchD p o = some d) : o = .ok d ∧ d.location.placeId = p := by
  cases o with
  | err e => simp [matchD] at h
  | ok d0 =>
    simp only [matchD] at h
    by_cases hid : d0.location.placeId = p
    · rw [if_pos hid] at h
      cases h
      exact ⟨rfl, hid⟩
    · rw [if_neg hid] at h
      simp at h

theorem natToCol_zero : natToCol 0 = ['A'] := by
  rw [natToCol]
  norm_num

theorem natToCol_twentyfive : natToCol 25 = ['Z'] := by
  rw [natToCol]
  norm_num

theorem natToCol_twentysix : natToCol 26 = ['A', 'A'] := by
  rw [natToCol]
  norm_num
  rw [natToCol]
  norm_num

theorem reviews_eq_singleton_headI {l : List Review} (h : l.length = 1) :
    l = [l.headI] := by
  cases l with
  | nil => simp at h
  | cons a t =>
    cases t with
    | nil => rfl
    | cons b t2 => simp at h

/-- C9: for every non-negative zero-based column index `n`,
`indexToSheetsColumn` returns the bijective base-26, 1-indexed letter
encoding of `n` over the alphabet `A`–`Z` (string value `n + 1`, all
letters in range, non-empty); `0 ↦ "A"`, `25 ↦ "Z"`, `26 ↦ "AA"`; being
a total Lean function it terminates on every input, and it returns the
`"Index must be non-negative"` error exactly on negative input. -/
theorem claim9_indexToSheetsColumn :
    (∀ n : Nat,
      indexToSheetsColumn (n : Int) = .ok (String.mk (natToCol n)) ∧
      0 < (natToCol n).length ∧
      (natToCol n).Forall (fun c => 'A' ≤ c ∧ c ≤ 'Z') ∧
      colValue (natToCol n) = n + 1) ∧
    indexToSheetsColumn 0 = .ok "A" ∧
    indexToSheetsColumn 25 = .ok "Z" ∧
    indexToSheetsColumn 26 = .ok "AA" ∧
    (∀ i : Int, indexToSheetsColumn i = .error "Index must be non-negative" ↔ i < 0) := by
  refine ⟨?_, ?_, ?_, ?_, ?_⟩
  case refine_2 =>
    unfold indexToSheetsColumn
    rw [if_neg (by decide), show ((0 : Int).toNat) = 0 from rfl, natToCol_zero]
  case refine_3 =>
    unfold indexToSheetsColumn
    rw [if_neg (by decide), show ((25 : Int).toNat) = 25 from rfl, natToCol_twentyfive]
  case refine_4 =>
    unfold indexToSheetsColumn
    rw [if_neg (by decide), show ((26 : Int).toNat) = 26 from rfl, natToCol_twentysix]
  · intro n
    refine ⟨?_, ?_, ?_, natToCol_value n⟩
    · unfold indexToSheetsColumn
      rw [if_neg (by omega : ¬ ((n : Int) < 0))]
      norm_num
    · exact List.length_pos.mpr (natToCol_ne_nil n)
    · exact List.forall_iff_forall_mem.mpr (natToCol_digits_in_range n)
  · intro i
    by_cases h : i < 0
    · simp [indexToSheetsColumn, h]
    · simp [indexToSheetsColumn, h]

theorem claim9_witness : colValue (natToCol 730) = 731 :=
  (claim9_indexToSheetsColumn.1 730).2.2.2

/-- C5: a row whose Google Maps cell exists but carries no rich-link URI
never yields a `Place`: `processRow` returns exactly one tagged `Error`
whose message is `"No maps URL in row <idx>"` and whose `meta` carries
the raw field record; the merge reducer then appends exactly that error
to the error list and leaves the place map and the uniqueness sets
untouched. -/
theorem claim5_missing_link (lookup : String → Option PlaceMetadata)
    (rowIdx : Nat) (data : RowRecord) (gm : CellData)
    (hgm : data.gmaps = some gm) (hchip : gm.chipUri = none) :
    processRecord lookup rowIdx data =
      some (.err { error := "No maps URL in row " ++ toString rowIdx,
                   metaPlaceId := none, metaRow := some data }) ∧
    (∀ agg : MergeAcc,
      (mergeStep agg (.err { error := "No maps URL in row " ++ toString rowIdx,
                             metaPlaceId := none, metaRow := some data })).errors
        = agg.errors ++ [{ error := "No maps URL in row " ++ toString rowIdx,
                           metaPlaceId := none, metaRow := some data }] ∧
      (mergeStep agg (.err { error := "No maps URL in row " ++ toString rowIdx,
                             metaPlaceId := none, metaRow := some data })).places
        = agg.places ∧
      (mergeStep agg (.err { error := "No maps URL in row " ++ toString rowIdx,
                             metaPlaceId := none, metaRow := some data })).uTypes
        = agg.uTypes) := by
  constructor
  · unfold processRecord
    rw [hgm]
    dsimp only
    rw [hchip]
  · intro agg
    exact ⟨rfl, rfl, rfl⟩

theorem claim5_witness :
    processRecord exLookup 0 exRowNoLink =
      some (.err { error := "No maps URL in row " ++ toString 0,
                   metaPlaceId := none, metaRow := some exRowNoLink }) :=
  (claim5_missing_link exLookup 0 exRowNoLink (exCellText "X") rfl rfl).1

/-- C6: a row whose link matches the identity pattern but whose
enrichment lookup returns a non-success response yields a tagged `Error`
(not a `Place`) whose `meta` carries the extracted identity; the merge
reducer records it exactly once in the error list and never touches the
place map (and within a run the lookup for that row is performed exactly
once, since `processRow` consults the lookup a single time). -/
theorem claim6_enrichment_failure (lookup : String → Option PlaceMetadata)
    (rowIdx : Nat) (data : RowRecord) (gm : CellData) (url pid : String)
    (hgm : data.gmaps = some gm) (hchip : gm.chipUri = some url)
    (hne : ¬ url = "") (hexec : execPlaceRegexp url = some pid)
    (hlk : lookup pid = none) :
    processRecord lookup rowIdx data =
      some (.err { error := "No place information for " ++ url,
                   metaPlaceId := some pid, metaRow := some data }) ∧
    (∀ agg : MergeAcc,
      (mergeStep agg (.err { error := "No place information for " ++ url,
                             metaPlaceId := some pid, metaRow := some data })).errors
        = agg.errors ++ [{ error := "No place information for " ++ url,
                           metaPlaceId := some pid, metaRow := some data }] ∧
      (mergeStep agg (.err { error := "No place information for " ++ url,
                             metaPlaceId := some pid, metaRow := some data })).places
        = agg.places) := by
  constructor
  · unfold processRecord
    rw [hgm]
    dsimp only
    rw [hchip]
    dsimp only
    rw [if_neg hne, hexec]
    dsimp only
    rw [hlk]
  · intro agg
    exact ⟨rfl, rfl⟩

theorem claim6_witness :
    processRecord exLookupNone 0 exRowA =
      some (.err { error := "No place information for " ++ exUrl,
                   metaPlaceId := some "abc123", metaRow := some exRowA }) :=
  (claim6_enrichment_failure exLookupNone 0 exRowA exGmapsCell exUrl "abc123"
    rfl rfl (by decide) (by decide) rfl).1

/-- C10 (frame): when the merge reducer folds a successful row whose
identity already exists in the place map, the stored place keeps its
entire `location` (city, name, coordinates, displayName, url, placeId)
from the first-seen row — only `reviews` and `types` change — and every
other entry of the place map is untouched by that step. -/
theorem claim10_frame (agg : MergeAcc) (d dupe : Place) (p : String)
    (hid : d.location.placeId = p) (hdupe : mapGet agg.places p = some dupe) :
    mapGet (mergeStep agg (.ok d)).places p = some (mergeInto dupe d) ∧
    (mergeInto dupe d).location = dupe.location ∧
    (∀ q : String, ¬ q = p →
      mapGet (mergeStep agg (.ok d)).places q = mapGet agg.places q) := by
  refine ⟨?_, rfl, ?_⟩
  · rw [mapGet_mergeStep]
    simp [updOpt, matchD, hid, hdupe]
  · intro q hq
    rw [mapGet_mergeStep]
    have hne : ¬ d.location.placeId = q := by rw [hid]; exact fun hh => hq hh.symm
    simp only [updOpt, matchD, if_neg hne]

theorem claim10_witness :
    mapGet (mergeStep (mergeRows [.ok exPlaceA]) (.ok exPlaceB)).places "abc123"
      = some (mergeInto exPlaceA exPlaceB) ∧
    (mergeInto exPlaceA exPlaceB).location = exPlaceA.location :=
  ⟨(claim10_frame (mergeRows [.ok exPlaceA]) exPlaceB exPlaceA "abc123" rfl
      (by decide)).1,
   (claim10_frame (mergeRows [.ok exPlaceA]) exPlaceB exPlaceA "abc123" rfl
      (by decide)).2.1⟩

/-- C4 (amended): for every row the Row Processor turns into a success
outcome, the resulting review's ranking is a number, equal to the Rank
cell's `numberValue` when present and to `0` when `numberValue` is
absent (`effectiveValue.numberValue || 0`); however, this defaulting
only happens when the `effectiveValue` object itself is present: when
the Rank cell has no `effectiveValue` at all, `processRow` raises a
`TypeError` past its boundary (modelled as `none`) instead of producing
a success with ranking `0`. -/
theorem claim4_ranking_amended :
    (∀ (lookup : String → Option PlaceMetadata) (rowIdx : Nat)
        (data : RowRecord) (d : Place) (rankC : CellData) (ev : EffectiveValue),
      processRecord lookup rowIdx data = some (.ok d) →
      data.rank = some rankC → rankC.effectiveValue = some ev →
      d.reviews.map (fun r => r.ranking) = [ev.numberValue.getD 0]) ∧
    (∀ (lookup : String → Option PlaceMetadata) (rowIdx : Nat)
        (data : RowRecord) (gm : CellData) (url pid : String)
        (meta : PlaceMetadata) (tipoC cidadeC userC rankC : CellData),
      data.gmaps = some gm → gm.chipUri = some url → ¬ url = "" →
      execPlaceRegexp url = some pid → lookup pid = some meta →
      data.tipo = some tipoC → data.cidade = some cidadeC →
      data.user = some userC → data.rank = some rankC →
      rankC.effectiveValue = none →
      processRecord lookup rowIdx data = none) := by
  constructor
  · intro lookup rowIdx data d rankC ev h hrank hev
    rcases processRecord_ok_inv lookup rowIdx data d h with
      ⟨tipoC0, userC0, rankC0, notasC0, ev0, _, _, hrank0, _, hev0, _, hrev⟩
    rw [hrank0] at hrank
    cases hrank
    rw [hev0] at hev
    cases hev
    rw [hrev]
    simp
  · intro lookup rowIdx data gm url pid meta tipoC cidadeC userC rankC
      hgm hchip hne hexec hlk htipo hcid huser hrank hev
    unfold processRecord
    rw [hgm]
    dsimp only
    rw [hchip]
    dsimp only
    rw [if_neg hne, hexec]
    dsimp only
    rw [hlk]
    dsimp only
    rw [htipo]
    dsimp only
    rw [hcid]
    dsimp only
    rw [huser]
    dsimp only
    rw [hrank]
    dsimp only
    rw [hev]

/-- C4 counterexample: a row that is successful in every respect except
that its Rank cell has no `effectiveValue` does not yield a tagged
outcome with ranking `0`; `processRow` raises (modelled by `none`), so
the normalization does escape the Row Processor's boundary. -/
theorem claim4_counterexample :
    processRecord exLookup 0 exRowNoRank = none ∧
    exRowNoRank.rank = some exEmptyCell ∧
    exEmptyCell.effectiveValue = none := by
  refine ⟨by decide, rfl, rfl⟩

theorem claim4_witness :
    exPlaceA.reviews.map (fun r => r.ranking) =
      [(({ numberValue := some 4 } : EffectiveValue)).numberValue.getD 0] :=
  claim4_ranking_amended.1 exLookup 0 exRowA exPlaceA (exRankCell 4)
    { numberValue := some 4 } (by decide) rfl rfl

/-- C7: whenever the Table Range Resolver cannot find the table at the
given `(sheetIndex, tableIndex)`, or the table has no defined range, it
throws the corresponding fatal error, and `fetchData` propagates exactly
that error before any row is processed: whatever the grid response and
the Places lookup are, the result is the same `Except.error` — the merge
reducer never runs and no `{places, errors, uniques}` artifact is
produced. -/
theorem claim7_fatal_range :
    (∀ (sp : Spreadsheet) (sheetIndex tableIndex : Nat),
      ((sp.sheets.bind (fun l => l.get? sheetIndex)).bind
        (fun s => s.tables)).bind (fun l => l.get? tableIndex) = none →
      getTableRange (some sp) sheetIndex tableIndex =
        .error ("Table #" ++ toString tableIndex ++ " not found in sheet #"
          ++ toString sheetIndex)) ∧
    (∀ (sp : Spreadsheet) (sheetIndex tableIndex : Nat) (table : STable),
      ((sp.sheets.bind (fun l => l.get? sheetIndex)).bind
        (fun s => s.tables)).bind (fun l => l.get? tableIndex) = some table →
      table.range = none →
      getTableRange (some sp) sheetIndex tableIndex =
        .error "Table has no defined range. Should be unreachable.") ∧
    (∀ (meta grid : Option Spreadsheet) (lookup : String → Option PlaceMetadata)
        (e : String),
      getTableRange meta 0 0 = .error e →
      fetchData meta grid lookup = .error e) := by
  refine ⟨?_, ?_, ?_⟩
  · intro sp sheetIndex tableIndex h
    unfold getTableRange
    dsimp only
    rw [h]
  · intro sp sheetIndex tableIndex table h hr
    unfold getTableRange
    dsimp only
    rw [h]
    dsimp only
    rw [hr]
  · intro meta grid lookup e h
    unfold fetchData
    rw [h]

theorem claim7_witness :
    fetchData (some exSpBad) none exLookupNone =
      .error ("Table #" ++ toString 0 ++ " not found in sheet #" ++ toString 0) :=
  claim7_fatal_range.2.2 (some exSpBad) none exLookupNone _
    (claim7_fatal_range.1 exSpBad 0 0 rfl)

/-- C1: for every outcome list folded by the merge reducer in which
every success carries exactly one review (as `processRow` guarantees),
and every identity `p`, the merged place stored under `p` has exactly
one review per successful row with that identity, in original row order:
its review list is precisely the list of those rows' single reviews, and
its length is the number of such rows. -/
theorem claim1_merged_reviews (outs : List RowOutcome)
    (hsingle : ∀ o ∈ outs, okSingleReview o) (p : String) (pl : Place)
    (hget : mapGet (mergeRows outs).places p = some pl) :
    pl.reviews = (outs.filterMap (matchD p)).map (fun d => d.reviews.headI) ∧
    pl.reviews.length = (outs.filterMap (matchD p)).length := by
  rw [mapGet_mergeRows, foldl_updOpt_none] at hget
  cases hm : outs.filterMap (matchD p) with
  | nil =>
    rw [hm] at hget
    simp at hget
  | cons d ds =>
    rw [hm] at hget
    have hpl : ds.foldl mergeInto d = pl := Option.some_inj.mp hget
    have hd_mem : d ∈ outs.filterMap (matchD p) := by rw [hm]; simp
    rcases List.mem_filterMap.mp hd_mem with ⟨o, ho, hmo⟩
    rcases matchD_eq_some hmo with ⟨rfl, _⟩
    have hs : okSingleReview (.ok d) := hsingle _ ho
    have hd1 : d.reviews = [d.reviews.headI] := reviews_eq_singleton_headI hs
    have hmain : pl.reviews = (d :: ds).map (fun x => x.reviews.headI) := by
      rw [← hpl, reviews_foldl_mergeInto ds d, hd1]
      simp
    refine ⟨hmain, ?_⟩
    rw [hmain, List.length_map]

theorem claim1_witness :
    exMergedPl.reviews =
      ([RowOutcome.ok exPlaceA, RowOutcome.ok exPlaceB].filterMap
        (matchD "abc123")).map (fun d => d.reviews.headI) ∧
    exMergedPl.reviews.length =
      ([RowOutcome.ok exPlaceA, RowOutcome.ok exPlaceB].filterMap
        (matchD "abc123")).length :=
  claim1_merged_reviews [.ok exPlaceA, .ok exPlaceB] (by decide) "abc123"
    exMergedPl (by decide)

/-- C8: every success produced by the Row Processor carries exactly one
review, and its type list is non-empty whenever the Tipo cell's value is
present; the merge reducer preserves this: in the terminal place map
every stored place has a non-empty review list, and a non-empty type
list whenever any contributing row's type list was non-empty. -/
theorem claim8_invariants :
    (∀ (lookup : String → Option PlaceMetadata) (rowIdx : Nat)
        (data : RowRecord) (d : Place),
      processRecord lookup rowIdx data = some (.ok d) →
      d.reviews.length = 1 ∧
      (∀ tipoC : CellData, data.tipo = some tipoC →
        ∀ s : String, tipoC.formattedValue = some s → ¬ d.types = [])) ∧
    (∀ outs : List RowOutcome, (∀ o ∈ outs, okSingleReview o) →
      ∀ (p : String) (pl : Place),
        mapGet (mergeRows outs).places p = some pl →
        ¬ pl.reviews = [] ∧
        (∀ d ∈ outs.filterMap (matchD p), ¬ d.types = [] → ¬ pl.types = [])) := by
  constructor
  · intro lookup rowIdx data d h
    rcases processRecord_ok_inv lookup rowIdx data d h with
      ⟨tipoC0, userC0, rankC0, notasC0, ev0, htipo0, _, _, _, _, htypes, hrev⟩
    constructor
    · rw [hrev]
      rfl
    · intro tipoC htipo s hs
      rw [htipo0] at htipo
      cases htipo
      rw [htypes, hs]
      exact jsSplit_ne_nil s
  · intro outs hsingle p pl hget
    rw [mapGet_mergeRows, foldl_updOpt_none] at hget
    cases hm : outs.filterMap (matchD p) with
    | nil =>
      rw [hm] at hget
      simp at hget
    | cons d0 ds =>
      rw [hm] at hget
      have hpl : ds.foldl mergeInto d0 = pl := Option.some_inj.mp hget
      have hd_mem : d0 ∈ outs.filterMap (matchD p) := by rw [hm]; simp
      rcases List.mem_filterMap.mp hd_mem with ⟨o, ho, hmo⟩
      rcases matchD_eq_some hmo with ⟨rfl, _⟩
      have hs : okSingleReview (.ok d0) := hsingle _ ho
      have hd1 : d0.reviews = [d0.reviews.headI] := reviews_eq_singleton_headI hs
      constructor
      · rw [← hpl, reviews_foldl_mergeInto ds d0, hd1]
        simp
      · intro d hd hdt
        rcases List.exists_mem_of_ne_nil d.types hdt with ⟨x, hx⟩
        have hmem : x ∈ pl.types := by
          rw [← hpl]
          rw [mem_types_foldl_mergeInto]
          rcases List.mem_cons.mp hd with rfl | hds
          · exact Or.inl hx
          · exact Or.inr ⟨d, hds, hx⟩
        exact List.ne_nil_of_mem hmem

theorem claim8_witness :
    exPlaceA.reviews.length = 1 ∧ ¬ exMergedPl.reviews = [] :=
  ⟨(claim8_invariants.1 exLookup 0 exRowA exPlaceA (by decide)).1,
   (claim8_invariants.2 [.ok exPlaceA, .ok exPlaceB] (by decide) "abc123"
     exMergedPl (by decide)).1⟩

/-- C2 counterexample: the claim "the merged `Place.types` contains no
duplicate values" fails when an identity has exactly one successful row
whose Tipo cell repeats a type: the first-seen row's type list is stored
verbatim (`agg.places.set(placeId, data)` does not dedup), so a row with
Tipo `"Bar, Bar"` yields a merged place whose types are `["Bar","Bar"]`. -/
theorem claim2_counterexample :
    processRecord exLookup 0 exRowDup = some (.ok exPlaceDup) ∧
    mapGet (mergeRows [.ok exPlaceDup]).places "abc123" = some exPlaceDup ∧
    exPlaceDup.types = ["Bar", "Bar"] ∧
    ¬ exPlaceDup.types.Nodup := by
  refine ⟨by decide, by decide, rfl, by decide⟩

/-- C2 (amended): when an identity has at least two successful rows, the
merged place's types are exactly the first-appearance-ordered, duplicate
free union of the rows' type lists (set semantics, ordered by first
appearance across rows in row order); the two-row scenario with identity
`abc123` produces `types = ["Bar","Café"]` and
`reviews = [{x,4},{y,0}]`.  With exactly one successful row, however,
the place's types are that row's list verbatim, which may contain
duplicates. -/
theorem claim2_types_amended :
    (∀ (outs : List RowOutcome) (p : String) (pl : Place),
      mapGet (mergeRows outs).places p = some pl →
      (∀ d : Place, outs.filterMap (matchD p) = [d] → pl.types = d.types) ∧
      (∀ (d : Place) (ds : List Place),
        outs.filterMap (matchD p) = d :: ds → ¬ ds = [] →
        pl.types = jsDedup (d.types ++ (ds.map (fun x => x.types)).flatten) ∧
        pl.types.Nodup ∧
        (∀ x : String, x ∈ pl.types ↔
          ∃ d2 ∈ outs.filterMap (matchD p), x ∈ d2.types))) ∧
    (mapGet (mergeRows ((processRecord exLookup 0 exRowA).toList ++
        (processRecord exLookup 1 exRowB).toList)).places "abc123"
      = some exMergedPl ∧
    exMergedPl.types = ["Bar", "Café"] ∧
    exMergedPl.reviews = [{ user := some "x", ranking := 4, notes := "" },
                          { user := some "y", ranking := 0, notes := "" }]) := by
  constructor
  · intro outs p pl hget
    rw [mapGet_mergeRows, foldl_updOpt_none] at hget
    constructor
    · intro d hm
      rw [hm] at hget
      have hpl : List.foldl mergeInto d [] = pl := Option.some_inj.mp hget
      rw [← hpl]
      rfl
    · intro d ds hm hne
      rw [hm] at hget
      have hpl : List.foldl mergeInto d ds = pl := Option.some_inj.mp hget
      have htypes : pl.types =
          jsDedup (d.types ++ (ds.map (fun x => x.types)).flatten) := by
        rw [← hpl]
        exact types_foldl_mergeInto_ne_nil ds d hne
      refine ⟨htypes, ?_, ?_⟩
      · rw [htypes]
        exact jsDedup_nodup _
      · intro x
        rw [hm]
        rw [← hpl, mem_types_foldl_mergeInto]
        constructor
        · rintro (hx | ⟨d2, hd2, hx⟩)
          · exact ⟨d, List.mem_cons_self d ds, hx⟩
          · exact ⟨d2, List.mem_cons_of_mem d hd2, hx⟩
        · rintro ⟨d2, hd2, hx⟩
          rcases List.mem_cons.mp hd2 with rfl | hds
          · exact Or.inl hx
          · exact Or.inr ⟨d2, hds, hx⟩
  · refine ⟨by decide, rfl, rfl⟩

theorem claim2_witness :
    exMergedPl.types =
      jsDedup (exPlaceA.types ++ ([exPlaceB].map (fun x => x.types)).flatten) :=
  (((claim2_types_amended.1 [.ok exPlaceA, .ok exPlaceB] "abc123" exMergedPl
    (by decide)).2) exPlaceA [exPlaceB] (by decide) (by decide)).1

theorem mem_final_types_iff (outs : List RowOutcome) (x : String) :
    (∃ pl ∈ (mergeRows outs).places.map (fun e => e.2), x ∈ pl.types) ↔
    (∃ o ∈ outs, x ∈ okTypes o) := by
  constructor
  · rintro ⟨pl, hpl, hx⟩
    rcases List.mem_map.mp hpl with ⟨e, he, hpe⟩
    obtain ⟨k, pl0⟩ := e
    cases hpe
    have hget : mapGet (mergeRows outs).places k = some pl0 :=
      mapGet_eq_some_of_mem _ _ _ (placeKeys_nodup_mergeRows outs) he
    rw [mapGet_mergeRows, foldl_updOpt_none] at hget
    cases hm : outs.filterMap (matchD k) with
    | nil =>
      rw [hm] at hget
      simp at hget
    | cons d ds =>
      rw [hm] at hget
      have hpl0 : List.foldl mergeInto d ds = pl0 := Option.some_inj.mp hget
      rw [← hpl0, mem_types_foldl_mergeInto] at hx
      rcases hx with hx | ⟨d2, hd2, hx⟩
      · have hd_mem : d ∈ outs.filterMap (matchD k) := by rw [hm]; simp
        rcases List.mem_filterMap.mp hd_mem with ⟨o, ho, hmo⟩
        rcases matchD_eq_some hmo with ⟨rfl, _⟩
        exact ⟨.ok d, ho, hx⟩
      · have hd_mem : d2 ∈ outs.filterMap (matchD k) := by
          rw [hm]
          exact List.mem_cons_of_mem d hd2
        rcases List.mem_filterMap.mp hd_mem with ⟨o, ho, hmo⟩
        rcases matchD_eq_some hmo with ⟨rfl, _⟩
        exact ⟨.ok d2, ho, hx⟩
  · rintro ⟨o, ho, hx⟩
    cases o with
    | err e => simp [okTypes] at hx
    | ok d =>
      simp only [okTypes] at hx
      have hmd : matchD d.location.placeId (.ok d) = some d := by simp [matchD]
      have hd_mem : d ∈ outs.filterMap (matchD d.location.placeId) :=
        List.mem_filterMap.mpr ⟨.ok d, ho, hmd⟩
      cases hm : outs.filterMap (matchD d.location.placeId) with
      | nil =>
        rw [hm] at hd_mem
        simp at hd_mem
      | cons d0 ds =>
        have hget : mapGet (mergeRows outs).places d.location.placeId =
            some (List.foldl mergeInto d0 ds) := by
          rw [mapGet_mergeRows, foldl_updOpt_none, hm]
        have hein : (d.location.placeId, List.foldl mergeInto d0 ds) ∈
            (mergeRows outs).places := mem_of_mapGet_eq_some _ _ _ hget
        refine ⟨List.foldl mergeInto d0 ds, List.mem_map.mpr ⟨_, hein, rfl⟩, ?_⟩
        rw [mem_types_foldl_mergeInto]
        rw [hm] at hd_mem
        rcases List.mem_cons.mp hd_mem with rfl | hds
        · exact Or.inl hx
        · exact Or.inr ⟨d, hds, hx⟩

theorem mem_final_users_iff (outs : List RowOutcome)
    (hsingle : ∀ o ∈ outs, okSingleReview o) (x : Option String) :
    (∃ pl ∈ (mergeRows outs).places.map (fun e => e.2),
        x ∈ pl.reviews.map (fun r => r.user)) ↔
    (∃ o ∈ outs, x ∈ okUsers o) := by
  constructor
  · rintro ⟨pl, hpl, hx⟩
    rcases List.mem_map.mp hpl with ⟨e, he, hpe⟩
    obtain ⟨k, pl0⟩ := e
    cases hpe
    have hget : mapGet (mergeRows outs).places k = some pl0 :=
      mapGet_eq_some_of_mem _ _ _ (placeKeys_nodup_mergeRows outs) he
    rw [mapGet_mergeRows, foldl_updOpt_none] at hget
    cases hm : outs.filterMap (matchD k) with
    | nil =>
      rw [hm] at hget
      simp at hget
    | cons d ds =>
      rw [hm] at hget
      have hpl0 : List.foldl mergeInto d ds = pl0 := Option.some_inj.mp hget
      rw [← hpl0, reviews_foldl_mergeInto] at hx
      rw [List.map_append, List.mem_append] at hx
      rcases hx with hx | hx
      · have hd_mem : d ∈ outs.filterMap (matchD k) := by rw [hm]; simp
        rcases List.mem_filterMap.mp hd_mem with ⟨o, ho, hmo⟩
        rcases matchD_eq_some hmo with ⟨rfl, _⟩
        exact ⟨.ok d, ho, hx⟩
      · rw [List.map_map, List.mem_map] at hx
        rcases hx with ⟨d2, hd2, hx⟩
        have hd_mem : d2 ∈ outs.filterMap (matchD k) := by
          rw [hm]
          exact List.mem_cons_of_mem d hd2
        rcases List.mem_filterMap.mp hd_mem with ⟨o, ho, hmo⟩
        rcases matchD_eq_some hmo with ⟨rfl, _⟩
        refine ⟨.ok d2, ho, ?_⟩
        have hs : okSingleReview (.ok d2) := hsingle _ ho
        have hd1 : d2.reviews = [d2.reviews.headI] := reviews_eq_singleton_headI hs
        show x ∈ d2.reviews.map (fun r => r.user)
        rw [hd1]
        simp only [List.map_cons, List.map_nil, List.mem_singleton]
        exact hx.symm
  · rintro ⟨o, ho, hx⟩
    cases o with
    | err e => simp [okUsers] at hx
    | ok d =>
      simp only [okUsers] at hx
      have hmd : matchD d.location.placeId (.ok d) = some d := by simp [matchD]
      have hd_mem : d ∈ outs.filterMap (matchD d.location.placeId) :=
        List.mem_filterMap.mpr ⟨.ok d, ho, hmd⟩
      cases hm : outs.filterMap (matchD d.location.placeId) with
      | nil =>
        rw [hm] at hd_mem
        simp at hd_mem
      | cons d0 ds =>
        have hget : mapGet (mergeRows outs).places d.location.placeId =
            some (List.foldl mergeInto d0 ds) := by
          rw [mapGet_mergeRows, foldl_updOpt_none, hm]
        have hein : (d.location.placeId, List.foldl mergeInto d0 ds) ∈
            (mergeRows outs).places := mem_of_mapGet_eq_some _ _ _ hget
        refine ⟨List.foldl mergeInto d0 ds, List.mem_map.mpr ⟨_, hein, rfl⟩, ?_⟩
        rw [reviews_foldl_mergeInto, List.map_append, List.mem_append]
        rw [hm] at hd_mem
        rcases List.mem_cons.mp hd_mem with rfl | hds
        · exact Or.inl hx
        · right
          rw [List.map_map, List.mem_map]
          refine ⟨d, hds, ?_⟩
          have hs : okSingleReview (.ok d) := hsingle _ (by
            rcases List.mem_filterMap.mp (by rw [hm]; exact List.mem_cons_of_mem d0 hds :
              d ∈ outs.filterMap (matchD d.location.placeId)) with ⟨o2, ho2, hmo2⟩
            rcases matchD_eq_some hmo2 with ⟨rfl, _⟩
            exact ho2)
          have hd1 : d.reviews = [d.reviews.headI] := reviews_eq_singleton_headI hs
          rw [hd1] at hx
          simp only [List.map_cons, List.map_nil, List.mem_singleton] at hx
          exact hx.symm

/-- C3 counterexample: `uniques.cities` is accumulated incrementally
over successful rows, not recomputed from the final places array; with
two rows of the same identity but different `Cidade` values the second
city appears in `uniques.cities` although no final place carries it, so
`uniques.cities` differs from the distinct-value set scanned from the
final `places` array. -/
theorem claim3_counterexample :
    (mergeRows [.ok exPlaceA, .ok exPlaceB]).uCities
      = [some "Lisboa", some "Porto"] ∧
    recomputeCities
      ((mergeRows [.ok exPlaceA, .ok exPlaceB]).places.map (fun e => e.2))
      = [some "Lisboa"] ∧
    some "Porto" ∈ (mergeRows [.ok exPlaceA, .ok exPlaceB]).uCities ∧
    some "Porto" ∉ recomputeCities
      ((mergeRows [.ok exPlaceA, .ok exPlaceB]).places.map (fun e => e.2)) ∧
    ¬ ((mergeRows [.ok exPlaceA, .ok exPlaceB]).uCities =
        recomputeCities
          ((mergeRows [.ok exPlaceA, .ok exPlaceB]).places.map (fun e => e.2))) := by
  refine ⟨by decide, by decide, by decide, by decide, by decide⟩

/-- C3 (amended): the three `uniques` are accumulated incrementally —
each equals the first-appearance dedup of the successful rows'
contributions in row order.  For `types` and `users` (when every success
carries one review, as `processRow` guarantees) this coincides, as a
set, with the distinct values scanned from the final `places` array; and
recomputing from the same `places` array is idempotent.  For `cities`,
however, the incremental set can strictly exceed the final-places scan
(see the counterexample), so that conjunct of the original claim fails. -/
theorem claim3_uniques_amended :
    (∀ outs : List RowOutcome,
      (mergeRows outs).uTypes = jsDedup ((outs.map okTypes).flatten) ∧
      (mergeRows outs).uUsers = jsDedup ((outs.map okUsers).flatten) ∧
      (mergeRows outs).uCities = jsDedup ((outs.map okCities).flatten)) ∧
    (∀ outs : List RowOutcome, (∀ o ∈ outs, okSingleReview o) →
      (∀ x : String, x ∈ (mergeRows outs).uTypes ↔
        x ∈ recomputeTypes ((mergeRows outs).places.map (fun e => e.2))) ∧
      (∀ x : Option String, x ∈ (mergeRows outs).uUsers ↔
        x ∈ recomputeUsers ((mergeRows outs).places.map (fun e => e.2)))) ∧
    (∀ places : List Place,
      jsDedup (recomputeTypes places) = recomputeTypes places ∧
      jsDedup (recomputeUsers places) = recomputeUsers places ∧
      jsDedup (recomputeCities places) = recomputeCities places) := by
  refine ⟨?_, ?_, ?_⟩
  · intro outs
    exact ⟨mergeRows_uTypes outs, mergeRows_uUsers outs, mergeRows_uCities outs⟩
  · intro outs hsingle
    constructor
    · intro x
      rw [mergeRows_uTypes, mem_jsDedup]
      unfold recomputeTypes
      rw [mem_jsDedup]
      have h1 : x ∈ ((outs.map okTypes).flatten) ↔ ∃ o ∈ outs, x ∈ okTypes o := by
        simp [List.mem_flatten]
      have h2 : x ∈ ((((mergeRows outs).places.map (fun e => e.2)).map
          (fun p => p.types)).flatten) ↔
          ∃ pl ∈ (mergeRows outs).places.map (fun e => e.2), x ∈ pl.types := by
        rw [List.mem_flatten]
        constructor
        · rintro ⟨l, hl, hx⟩
          rcases List.mem_map.mp hl with ⟨pl, hpl, rfl⟩
          exact ⟨pl, hpl, hx⟩
        · rintro ⟨pl, hpl, hx⟩
          exact ⟨pl.types, List.mem_map.mpr ⟨pl, hpl, rfl⟩, hx⟩
      rw [h1, h2]
      exact (mem_final_types_iff outs x).symm
    · intro x
      rw [mergeRows_uUsers, mem_jsDedup]
      unfold recomputeUsers
      rw [mem_jsDedup]
      have h1 : x ∈ ((outs.map okUsers).flatten) ↔ ∃ o ∈ outs, x ∈ okUsers o := by
        simp [List.mem_flatten]
      have h2 : x ∈ ((((mergeRows outs).places.map (fun e => e.2)).map
          (fun p => p.reviews.map (fun r => r.user))).flatten) ↔
          ∃ pl ∈ (mergeRows outs).places.map (fun e => e.2),
            x ∈ pl.reviews.map (fun r => r.user) := by
        rw [List.mem_flatten]
        constructor
        · rintro ⟨l, hl, hx⟩
          rcases List.mem_map.mp hl with ⟨pl, hpl, rfl⟩
          exact ⟨pl, hpl, hx⟩
        · rintro ⟨pl, hpl, hx⟩
          exact ⟨pl.reviews.map (fun r => r.user),
            List.mem_map.mpr ⟨pl, hpl, rfl⟩, hx⟩
      rw [h1, h2]
      exact (mem_final_users_iff outs hsingle x).symm
  · intro places
    exact ⟨jsDedup_idem _, jsDedup_idem _, jsDedup_idem _⟩

theorem claim3_witness :
    "Café" ∈ (mergeRows [.ok exPlaceA, .ok exPlaceB]).uTypes ↔
      "Café" ∈ recomputeTypes
        ((mergeRows [.ok exPlaceA, .ok exPlaceB]).places.map (fun e => e.2)) :=
  ((claim3_uniques_amended.2.1 [.ok exPlaceA, .ok exPlaceB] (by decide)).1) "Café"
